import Mathlib

set_option maxHeartbeats 1000000
set_option maxRecDepth 4000

/-!
Verification development for the `dropback` backup tool
(`node.py` and `backup.py`): a shallow embedding of its node-tree
model, serialization, remote-tree walks, index rebuild, diff engine and
sync executor, together with theorems about the claims of the
specification.
-/

namespace DropBack

/-- POSIX-style stat record attached to every node (`NFile.__init__`,
`node.py`).  Each field is `Option Int`: the index-rebuild path
constructs nodes from a `stat_template` whose entries are all `None`,
and `NRootFolder` inherits `None` class attributes, so absent values
are first-class in the source. -/
structure Stats where
  uid : Option Int
  gid : Option Int
  mode : Option Int
  mtime : Option Int
  ctime : Option Int
  size : Option Int
deriving DecidableEq, Repr

/-- The all-`None` `stat_template` of
`NFolder.rewrite_index_without_assumption_tree_r`. -/
def statTemplate : Stats := ⟨none, none, none, none, none, none⟩

/-- A node of the hierarchy: `NFile` or `NFolder` of `node.py` (an
`NRootFolder` is a folder with name `""`).  Fields follow the Python
attributes `name`, the stats, `symlink_target`, `uploaded`,
`todelete`; a folder additionally owns its `children` list.  The
`parent` back-reference is not stored: paths are threaded down the
recursive operations instead. -/
inductive Node where
  | file (name : String) (stats : Stats) (symlinkTarget : Option String)
      (uploaded : Bool) (todelete : Bool)
  | folder (name : String) (stats : Stats) (symlinkTarget : Option String)
      (uploaded : Bool) (todelete : Bool) (children : List Node)
deriving Repr

def Node.name : Node → String
  | .file n _ _ _ _ => n
  | .folder n _ _ _ _ _ => n

def Node.stats : Node → Stats
  | .file _ s _ _ _ => s
  | .folder _ s _ _ _ _ => s

def Node.symlinkTarget : Node → Option String
  | .file _ _ sy _ _ => sy
  | .folder _ _ sy _ _ _ => sy

def Node.uploaded : Node → Bool
  | .file _ _ _ up _ => up
  | .folder _ _ _ up _ _ => up

def Node.todelete : Node → Bool
  | .file _ _ _ _ td => td
  | .folder _ _ _ _ td _ => td

/-- The `children` of a folder; a plain `NFile` has no such attribute in
the source and every code path that reads `children` is reached only
with folders, so the file case is arbitrary (empty). -/
def Node.childrenD : Node → List Node
  | .file _ _ _ _ _ => []
  | .folder _ _ _ _ _ cs => cs

def Node.isFolder : Node → Bool
  | .file _ _ _ _ _ => false
  | .folder _ _ _ _ _ _ => true

/-- Python truthiness of an optional integer: `None` and `0` are falsy
(used by `if self.mode:`, `if self.uid and self.gid:` in
`NFile.restore` / `NFolder.restore`). -/
def truthyI : Option Int → Bool
  | none => false
  | some x => x != 0

/-- Python-2 `<` between a possibly-`None` value and an integer:
`None` sorts below every number (`self.size < self.CHUNKED_SIZE_LIMIT`
in `NFile.upload`). -/
def pyLtOptInt : Option Int → Int → Bool
  | none, _ => true
  | some x, b => x < b

/-- Source: `NFile.CHUNKED_SIZE_LIMIT = 1024*1024*100` (`node.py`). -/
def CHUNKED_SIZE_LIMIT : Int := 1024 * 1024 * 100

/-- One per-folder metadata document, the JSON shape produced by
`encodable`: the `_type` tag, `name`, `uploaded`, the `stats` object,
an optional `symlink_target` key and an optional `children` key. -/
inductive Doc where
  | mk (tag : String) (name : String) (uploaded : Bool) (stats : Stats)
      (symlinkTarget : Option String) (childrenField : Option (List Doc))
deriving Repr

def Doc.tag : Doc → String
  | .mk t _ _ _ _ _ => t

def Doc.name : Doc → String
  | .mk _ n _ _ _ _ => n

def Doc.uploadedF : Doc → Bool
  | .mk _ _ u _ _ _ => u

def Doc.stats : Doc → Stats
  | .mk _ _ _ s _ _ => s

def Doc.symlinkTarget : Doc → Option String
  | .mk _ _ _ _ sy _ => sy

def Doc.childrenField : Doc → Option (List Doc)
  | .mk _ _ _ _ _ cf => cf

/-- The `symlink_target` key is emitted only when the attribute is
truthy (`if self.symlink_target:` in `NFile.encodable`), so an empty
string is dropped like `None`. -/
def symEnc : Option String → Option String
  | none => none
  | some t => if t = "" then none else some t

mutual
/-- Source: `NFile.encodable` / `NFolder.encodable` (`node.py`): the structural
description used as the metadata wire format.  For a folder the
`children` key is present iff `max_recurse_depth != 0` and filters a
child out iff `not (c.uploaded or only_uploaded is not True)`. -/
def encodableNode : Int → Bool → Node → Doc
  | _, _, .file n s sy up _ => .mk "NFile" n up s (symEnc sy) none
  | d, onlyUp, .folder n s sy up _ cs =>
    .mk "NFolder" n up s (symEnc sy)
      (if d ≠ 0 then some (encodableList (d - 1) onlyUp cs) else none)

/-- The list comprehension
`[c.encodable(max_recurse_depth-1, only_uploaded) for c in self.children if c.uploaded or only_uploaded is not True]`. -/
def encodableList : Int → Bool → List Node → List Doc
  | _, _, [] => []
  | d, onlyUp, c :: cs =>
    if c.uploaded || !onlyUp then
      encodableNode d onlyUp c :: encodableList d onlyUp cs
    else
      encodableList d onlyUp cs
end

/-! ## Sync executor: upload (`NFile.upload`, `NFolder.upload`)

The remote client is modeled as an oracle `env : List String → UpOutcome`
keyed by remote path (list of path segments from the data root): `probe`
is the `dropbox_client.metadata` result (`none` for a 404 / empty dict,
`some b` for a metadata dict whose `is_dir` is `b`), and `ok` tells
whether the file-body transfer at that path completes without raising.
Folder-side remote operations (`file_create_folder`, the metadata
`put_file`, `file_delete`) are modeled as succeeding; a file's
`put_file` / chunked-upload raising is the failure mode the claims are
about, and is what `ok = false` means. -/

/-- One observable remote action performed during upload. -/
inductive RAct where
  | probeA (p : List String)
  | delA (p : List String)
  | putA (p : List String)
  | chunkA (p : List String)
  | createA (p : List String)
  | metaA (p : List String) (d : Doc)
deriving Repr

def RAct.isProbe : RAct → Bool
  | .probeA _ => true
  | _ => false

def RAct.isDel : RAct → Bool
  | .delA _ => true
  | _ => false

def RAct.isPut : RAct → Bool
  | .putA _ => true
  | _ => false

def RAct.isChunk : RAct → Bool
  | .chunkA _ => true
  | _ => false

def RAct.isCreate : RAct → Bool
  | .createA _ => true
  | _ => false

def RAct.isMeta : RAct → Bool
  | .metaA _ _ => true
  | _ => false

/-- Oracle outcome for one remote path (see the section comment). -/
structure UpOutcome where
  probe : Option Bool
  ok : Bool

/-- The remote name of a node: symlinks are stored as
`<name>.symlink` (`full_remote_path = "{name}.symlink"` in both
`upload` methods; the suffix is attached before the metadata probe). -/
def remoteName (n : String) : Option String → String
  | none => n
  | some _ => n ++ ".symlink"

/-- Membership in a guarded list that is empty when the guard fails. -/
theorem mem_if_nil {α} {c : Prop} [Decidable c] {l : List α} {a : α} :
    a ∈ (if c then l else []) ↔ c ∧ a ∈ l := by
  split <;> simp_all

/-- Membership in a two-way conditional list. -/
theorem mem_if_or {α} {c : Prop} [Decidable c] {l₁ l₂ : List α} {a : α} :
    a ∈ (if c then l₁ else l₂) ↔ (c ∧ a ∈ l₁) ∨ (¬ c ∧ a ∈ l₂) := by
  split <;> simp_all

mutual
/-- Source: `NFile.upload` / `NFolder.upload` (`node.py`), returning the remote
actions performed and the updated node.  Faithful points: a file whose
`uploaded` flag is set does nothing at all; a folder always probes,
always runs the type-conflict check, always recurses into children
(when depth allows) and always rewrites its metadata object, guarding
only the create/symlink-put step by `uploaded`.  The file conflict
branch is `not overwrite_mode and "is_dir" in meta and meta["is_dir"] is True`;
the folder branch is
`not self.symlink_target and "is_dir" in meta and meta["is_dir"] is not True`
(no overwrite test). -/
def uploadNode (env : List String → UpOutcome) (ow : Bool) (d : Int)
    (p : List String) : Node → List RAct × Node
  | .file n s sy up td =>
    let p' := p ++ [remoteName n sy]
    let o := env p'
    let del := if !ow && o.probe == some true then [RAct.delA p'] else []
    let tr :=
      match sy with
      | some _ => [RAct.putA p']
      | none =>
        if pyLtOptInt s.size CHUNKED_SIZE_LIMIT then [RAct.putA p']
        else [RAct.chunkA p']
    (if up then [] else RAct.probeA p' :: del ++ tr,
     .file n s sy (if up then up else o.ok) td)
  | .folder n s sy up td cs =>
    let p' := p ++ [remoteName n sy]
    let o := env p'
    let del := if sy == none && o.probe == some false then [RAct.delA p'] else []
    match sy with
    | some tgt =>
      (RAct.probeA p' :: (if !up then [RAct.putA p'] else []),
       .folder n s (some tgt) (if !up then o.ok else up) td cs)
    | none =>
      let create := if !up then [RAct.createA p'] else []
      let recActs := if d ≠ 0 then (uploadList env ow (d - 1) p' cs).1 else []
      let recCs := if d ≠ 0 then (uploadList env ow (d - 1) p' cs).2 else cs
      let self' := Node.folder n s none true td recCs
      (RAct.probeA p' :: del ++ create ++ recActs
        ++ [RAct.metaA p' (encodableNode 1 true self')], self')

/-- The child loop of `NFolder.upload`. -/
def uploadList (env : List String → UpOutcome) (ow : Bool) (d : Int)
    (p : List String) : List Node → List RAct × List Node
  | [] => ([], [])
  | c :: cs =>
    let r := uploadNode env ow d p c
    let rs := uploadList env ow d p cs
    (r.1 ++ rs.1, r.2 :: rs.2)
end

def RAct.path : RAct → List String
  | .probeA p => p
  | .delA p => p
  | .putA p => p
  | .chunkA p => p
  | .createA p => p
  | .metaA p _ => p

def RAct.isProbeAt (p : List String) (a : RAct) : Bool :=
  a.isProbe && (a.path == p)

def RAct.isDelAt (p : List String) (a : RAct) : Bool :=
  a.isDel && (a.path == p)

def RAct.isCreateAt (p : List String) (a : RAct) : Bool :=
  a.isCreate && (a.path == p)

def RAct.isMetaAt (p : List String) (a : RAct) : Bool :=
  a.isMeta && (a.path == p)

mutual
/-- Every remote action an upload emits lives strictly below the base
path (its own actions at `p ++ [remoteName ...]`, children deeper). -/
theorem uploadNode_path_length (env : List String → UpOutcome) (ow : Bool)
    (d : Int) (p : List String) (nd : Node) :
    ∀ a ∈ (uploadNode env ow d p nd).1, p.length < a.path.length := by
  match nd with
  | .file n s sy up td =>
    intro a ha
    cases sy with
    | none =>
      simp only [uploadNode, mem_if_or, mem_if_nil, List.mem_cons,
        List.mem_append, List.mem_singleton, List.not_mem_nil, or_false,
        and_false, false_and, false_or, or_assoc] at ha
      rcases ha with ⟨-, ha⟩
      rcases ha with rfl | ⟨-, rfl⟩ | ⟨-, rfl⟩ | ⟨-, rfl⟩ <;> simp [RAct.path]
    | some t =>
      simp only [uploadNode, mem_if_or, mem_if_nil, List.mem_cons,
        List.mem_append, List.mem_singleton, List.not_mem_nil, or_false,
        and_false, false_and, false_or, or_assoc] at ha
      rcases ha with ⟨-, ha⟩
      rcases ha with rfl | ⟨-, rfl⟩ | rfl <;> simp [RAct.path]
  | .folder n s sy up td cs =>
    intro a ha
    cases sy with
    | none =>
      simp only [uploadNode, mem_if_or, mem_if_nil, List.mem_cons,
        List.mem_append, List.mem_singleton, List.not_mem_nil, or_false,
        and_false, false_and, false_or, or_assoc] at ha
      rcases ha with rfl | ⟨-, rfl⟩ | ⟨-, rfl⟩ | ⟨-, ha⟩ | rfl
      · simp [RAct.path]
      · simp [RAct.path]
      · simp [RAct.path]
      · have := uploadList_path_length env ow (d - 1)
          (p ++ [remoteName n none]) cs a ha
        simp only [List.length_append, List.length_cons, List.length_nil] at this
        omega
      · simp [RAct.path]
    | some t =>
      simp only [uploadNode, mem_if_nil, List.mem_cons, List.mem_singleton,
        List.not_mem_nil, or_false] at ha
      rcases ha with rfl | ⟨-, rfl⟩ <;> simp [RAct.path]

/-- List version of `uploadNode_path_length`. -/
theorem uploadList_path_length (env : List String → UpOutcome) (ow : Bool)
    (d : Int) (p : List String) (cs : List Node) :
    ∀ a ∈ (uploadList env ow d p cs).1, p.length < a.path.length := by
  match cs with
  | [] => intro a ha; simp [uploadList] at ha
  | c :: cs' =>
    intro a ha
    simp only [uploadList, List.mem_append] at ha
    rcases ha with h | h
    · exact uploadNode_path_length env ow d p c a h
    · exact uploadList_path_length env ow d p cs' a h
end

/-- Children's upload actions never sit at the parent's own remote
path: their paths are strictly longer. -/
theorem uploadList_not_at_parent (env : List String → UpOutcome) (ow : Bool)
    (d : Int) (p : List String) (cs : List Node) (f : RAct → Bool) :
    ((uploadList env ow d p cs).1.any (fun a => f a && (a.path == p))) = false := by
  rw [List.any_eq_false]
  intro a ha
  have hlen := uploadList_path_length env ow d p cs a ha
  simp only [Bool.and_eq_true, beq_iff_eq, not_and]
  intro _ h
  rw [h] at hlen
  omega

/-- A concrete small stat record for examples. -/
def stSmall : Stats := ⟨some 1000, some 1000, some 420, some 10, some 11, some 5⟩

/-- Oracle: every probe 404s, every transfer succeeds. -/
def envOk : List String → UpOutcome := fun _ => ⟨none, true⟩

/-- Oracle: every probe reports an existing directory, transfers succeed. -/
def envDir : List String → UpOutcome := fun _ => ⟨some true, true⟩

/-- Oracle: every probe reports an existing non-directory, transfers succeed. -/
def envNonDir : List String → UpOutcome := fun _ => ⟨some false, true⟩

/-- C1: the type-conflict deletion evaluated at the failing inputs.
With overwrite requested and the remote path reporting a directory,
`NFile.upload` performs no deletion; with overwrite NOT requested it
deletes the conflicting remote directory — the exact inverse of the
claim (the guard reads `not overwrite_mode and ...` where its own
comment and the spec intend `overwrite_mode and ...`).  And
`NFolder.upload` deletes a conflicting remote non-directory even when
overwrite is not requested. -/
theorem c1_conflict_deletion_inverted :
    ((uploadNode envDir true (-1) []
        (.file "f" stSmall none false false)).1.any RAct.isDel = false)
    ∧ ((uploadNode envDir false (-1) []
        (.file "f" stSmall none false false)).1.any RAct.isDel = true)
    ∧ ((uploadNode envNonDir false (-1) []
        (.folder "g" stSmall none false false [])).1.any RAct.isDel = true) := by
  decide

/-- The folder used to refute C3: already `uploaded`, with one child
file still pending. -/
def c3Folder : Node :=
  .folder "d" stSmall none true false [.file "f" stSmall none false false]

/-- C3 counterexample: uploading an already-`uploaded` folder is not a
no-op — it still probes the remote path, transfers the pending child
and rewrites the folder's metadata object, and the node tree changes
(the child's `uploaded` flag becomes true). -/
theorem c3_counterexample :
    ((uploadNode envOk true (-1) [] c3Folder).1.any RAct.isProbe = true)
    ∧ ((uploadNode envOk true (-1) [] c3Folder).1.any RAct.isPut = true)
    ∧ ((uploadNode envOk true (-1) [] c3Folder).1.any RAct.isMeta = true)
    ∧ ((uploadNode envOk true (-1) [] c3Folder).2.childrenD.map Node.uploaded
        = [true]) := by
  decide

/-- C3 (amended): a File node with `uploaded = true` is a complete
no-op, but for a Folder node the flag only suppresses the
folder-creation (or symlink-put) step: the remote metadata probe, the
type-conflict deletion, the recursion into the children and the
metadata rewrite still happen. -/
theorem c3_amended_uploaded_skip :
    (∀ env ow d p n s sy td,
      uploadNode env ow d p (.file n s sy true td) = ([], .file n s sy true td))
    ∧ (∀ env ow d p n s td cs,
        ((uploadNode env ow d p (.folder n s none true td cs)).1.any
            (RAct.isProbeAt (p ++ [n])) = true)
        ∧ ((uploadNode env ow d p (.folder n s none true td cs)).1.any
            (RAct.isCreateAt (p ++ [n])) = false)
        ∧ ((uploadNode env ow d p (.folder n s none true td cs)).1.any
            (RAct.isMetaAt (p ++ [n])) = true)
        ∧ ((env (p ++ [n])).probe = some false →
            (uploadNode env ow d p (.folder n s none true td cs)).1.any
              (RAct.isDelAt (p ++ [n])) = true)
        ∧ ((uploadNode env ow d p (.folder n s none true td cs)).2.childrenD
            = (if d ≠ 0 then (uploadList env ow (d - 1) (p ++ [n]) cs).2 else cs))) := by
  constructor
  · intro env ow d p n s sy td
    simp [uploadNode]
  · intro env ow d p n s td cs
    have hkids := uploadList_not_at_parent env ow (d - 1) (p ++ [n]) cs
    refine ⟨?_, ?_, ?_, ?_, ?_⟩
    · simp [uploadNode, remoteName, RAct.isProbeAt, RAct.isProbe, RAct.path]
    · rw [List.any_eq_false]
      intro a ha
      simp only [uploadNode, mem_if_or, mem_if_nil, List.mem_cons,
        List.mem_append, List.mem_singleton, List.not_mem_nil, or_false,
        and_false, false_and, false_or, or_assoc, Bool.not_true,
        remoteName] at ha
      rcases ha with rfl | ⟨-, rfl⟩ | ⟨hcf, -⟩ | ⟨-, ha⟩ | rfl
      · simp [RAct.isCreateAt, RAct.isCreate]
      · simp [RAct.isCreateAt, RAct.isCreate]
      · simp at hcf
      · have hlen := uploadList_path_length env ow (d - 1) (p ++ [n]) cs a ha
        simp only [RAct.isCreateAt, Bool.and_eq_true, beq_iff_eq, not_and]
        intro _ hp
        rw [hp] at hlen
        omega
      · simp [RAct.isCreateAt, RAct.isCreate]
    · simp [uploadNode, remoteName, RAct.isMetaAt, RAct.isMeta, RAct.path,
        List.any_append]
    · intro hpr
      simp [uploadNode, remoteName, RAct.isDelAt, RAct.isDel, RAct.path,
        List.any_append, hpr]
    · by_cases hd : d = 0 <;>
        simp [uploadNode, remoteName, Node.childrenD, hd]

/-- C5: a non-symlink file whose recorded size is strictly below
`CHUNKED_SIZE_LIMIT` (100 MiB) goes through the single-put path,
at or above it through the chunked path, and its `uploaded` flag ends
up true exactly when the transfer completes without raising. -/
theorem c5_chunk_threshold (env : List String → UpOutcome) (ow : Bool)
    (d : Int) (p : List String) (n : String) (u g m mt ct : Option Int)
    (nsz : Int) (td : Bool) :
    ((uploadNode env ow d p
        (.file n ⟨u, g, m, mt, ct, some nsz⟩ none false td)).1.any RAct.isPut = true
      ↔ nsz < CHUNKED_SIZE_LIMIT)
    ∧ ((uploadNode env ow d p
        (.file n ⟨u, g, m, mt, ct, some nsz⟩ none false td)).1.any RAct.isChunk = true
      ↔ ¬ nsz < CHUNKED_SIZE_LIMIT)
    ∧ ((uploadNode env ow d p
        (.file n ⟨u, g, m, mt, ct, some nsz⟩ none false td)).2.uploaded = true
      ↔ (env (p ++ [n])).ok = true) := by
  have hms : pyLtOptInt (some nsz) CHUNKED_SIZE_LIMIT = decide (nsz < CHUNKED_SIZE_LIMIT) := by
    simp [pyLtOptInt]
  by_cases hsz : nsz < CHUNKED_SIZE_LIMIT <;>
    cases hdel : (!ow && (env (p ++ [n])).probe == some true) <;>
    simp [uploadNode, remoteName, Node.uploaded, hms, hsz, hdel,
      List.any_append, RAct.isPut, RAct.isChunk]

/-! ## Sync executor: restore (`NFile.restore`, `NFolder.restore`)

Local-filesystem effects are recorded as a list of actions; `ex` is the
`os.path.exists` oracle.  Remote reads and the local writes themselves
are modeled as succeeding — the claims below are about which effects
are attempted, not about transport failures. -/

/-- One observable local-filesystem action performed during restore. -/
inductive FsAct where
  | writeA (p : List String)
  | mkdirA (p : List String)
  | chmodA (p : List String) (m : Int)
  | chownA (p : List String) (u g : Int)
  | utimeA (p : List String) (t : Int)
  | symlinkA (target : String) (p : List String)
deriving DecidableEq, Repr

def FsAct.path : FsAct → List String
  | .writeA p => p
  | .mkdirA p => p
  | .chmodA p _ => p
  | .chownA p _ _ => p
  | .utimeA p _ => p
  | .symlinkA _ p => p

/-- Is this a `chown` at exactly the given path? -/
def FsAct.isChownAt (p : List String) : FsAct → Bool
  | .chownA q _ _ => q == p
  | _ => false

/-- Is this the content-restoring action (file write, directory
creation, or symlink creation) at exactly the given path? -/
def FsAct.isContentAt (p : List String) : FsAct → Bool
  | .writeA q => q == p
  | .mkdirA q => q == p
  | .symlinkA _ q => q == p
  | _ => false

/-- Extract the integer of a known-present optional value (used only
under a `truthyI` guard). -/
def getI : Option Int → Int
  | none => 0
  | some x => x

mutual
/-- Source: `NFile.restore` / `NFolder.restore` (`node.py`).  A node is
processed iff `not os.path.exists(path) or overwrite_mode`; a symlink
node only creates the link; otherwise the content is restored first
(file body write / `os.mkdir`), then `chmod` if `self.mode` is truthy,
`chown` if `self.uid and self.gid` is truthy, `utime` if `self.mtime`
is truthy, and a folder finally recurses when `max_recurse_depth != 0`. -/
def restoreNode (ex : List String → Bool) (ow : Bool) (d : Int)
    (p : List String) : Node → List FsAct
  | .file n s sy _ _ =>
    let p' := p ++ [n]
    if !(ex p') || ow then
      match sy with
      | none =>
        FsAct.writeA p'
          :: ((if truthyI s.mode then [FsAct.chmodA p' (getI s.mode)] else [])
            ++ (if truthyI s.uid && truthyI s.gid then
                  [FsAct.chownA p' (getI s.uid) (getI s.gid)] else [])
            ++ (if truthyI s.mtime then [FsAct.utimeA p' (getI s.mtime)] else []))
      | some t => [FsAct.symlinkA t p']
    else []
  | .folder n s sy _ _ cs =>
    let p' := p ++ [n]
    if !(ex p') || ow then
      match sy with
      | none =>
        FsAct.mkdirA p'
          :: ((if truthyI s.mode then [FsAct.chmodA p' (getI s.mode)] else [])
            ++ (if truthyI s.uid && truthyI s.gid then
                  [FsAct.chownA p' (getI s.uid) (getI s.gid)] else [])
            ++ (if truthyI s.mtime then [FsAct.utimeA p' (getI s.mtime)] else [])
            ++ (if d ≠ 0 then restoreList ex ow (d - 1) p' cs else []))
      | some t => [FsAct.symlinkA t p']
    else []

/-- The child loop of `NFolder.restore`. -/
def restoreList (ex : List String → Bool) (ow : Bool) (d : Int)
    (p : List String) : List Node → List FsAct
  | [] => []
  | c :: cs => restoreNode ex ow d p c ++ restoreList ex ow d p cs
end

mutual
/-- Every action a node's restore emits lives strictly below the base
path (its own actions at `p ++ [name]`, children deeper). -/
theorem restoreNode_path_length (ex : List String → Bool) (ow : Bool)
    (d : Int) (p : List String) (nd : Node) :
    ∀ a ∈ restoreNode ex ow d p nd, p.length < a.path.length := by
  match nd with
  | .file n s sy up td =>
    intro a ha
    simp only [restoreNode] at ha
    split at ha
    · cases sy with
      | none =>
        simp only [List.mem_cons, List.mem_append, mem_if_nil,
          List.mem_singleton, List.not_mem_nil, or_false, or_assoc,
          and_assoc] at ha
        rcases ha with rfl | ⟨_, rfl⟩ | ⟨_, rfl⟩ | ⟨_, rfl⟩ <;>
          simp [FsAct.path]
      | some t =>
        simp only [List.mem_singleton] at ha
        subst ha; simp [FsAct.path]
    · simp at ha
  | .folder n s sy up td cs =>
    intro a ha
    simp only [restoreNode] at ha
    split at ha
    · cases sy with
      | none =>
        simp only [List.mem_cons, List.mem_append, mem_if_nil,
          List.mem_singleton, List.not_mem_nil, or_false, or_assoc,
          and_assoc] at ha
        rcases ha with rfl | ⟨_, rfl⟩ | ⟨_, rfl⟩ | ⟨_, rfl⟩ | ⟨_, hmem⟩
        · simp [FsAct.path]
        · simp [FsAct.path]
        · simp [FsAct.path]
        · simp [FsAct.path]
        · have := restoreList_path_length ex ow (d - 1) (p ++ [n]) cs a hmem
          simp only [List.length_append, List.length_cons, List.length_nil] at this
          omega
      | some t =>
        simp only [List.mem_singleton] at ha
        subst ha; simp [FsAct.path]
    · simp at ha

/-- List version of `restoreNode_path_length`. -/
theorem restoreList_path_length (ex : List String → Bool) (ow : Bool)
    (d : Int) (p : List String) (cs : List Node) :
    ∀ a ∈ restoreList ex ow d p cs, p.length < a.path.length := by
  match cs with
  | [] => intro a ha; simp [restoreList] at ha
  | c :: cs' =>
    intro a ha
    simp only [restoreList, List.mem_append] at ha
    rcases ha with h | h
    · exact restoreNode_path_length ex ow d p c a h
    · exact restoreList_path_length ex ow d p cs' a h
end

/-- Children's restore actions can never be a `chown` at the parent's
own path: their paths are strictly longer. -/
theorem restoreList_no_chown_at_parent (ex : List String → Bool) (ow : Bool)
    (d : Int) (p : List String) (cs : List Node) :
    (restoreList ex ow d p cs).any (FsAct.isChownAt p) = false := by
  rw [List.any_eq_false]
  intro a ha
  have hlen := restoreList_path_length ex ow d p cs a ha
  cases a <;> simp [FsAct.isChownAt, FsAct.path] at hlen ⊢
  intro h
  subst h
  omega

/-- C9: for every node being restored (overwrite mode, as the `restore`
command invokes it), the `chown` step at the node's own path is
performed iff the recorded `uid` and `gid` are both truthy — both
present and nonzero — and the node is not a symlink; when either is 0
or absent the ownership step is skipped entirely while the content
action (file write / mkdir / symlink creation) is still performed. -/
theorem c9_restore_chown_guard (nd : Node) (ex : List String → Bool)
    (d : Int) (p : List String) :
    ((restoreNode ex true d p nd).any (FsAct.isChownAt (p ++ [nd.name])) = true
      ↔ (truthyI nd.stats.uid = true ∧ truthyI nd.stats.gid = true
          ∧ nd.symlinkTarget = none))
    ∧ (restoreNode ex true d p nd).any (FsAct.isContentAt (p ++ [nd.name])) = true := by
  cases nd with
  | file n s sy up td =>
    cases sy with
    | none =>
      constructor
      · cases hu : truthyI s.uid <;> cases hg : truthyI s.gid <;>
          cases hm : truthyI s.mode <;> cases ht : truthyI s.mtime <;>
          simp [restoreNode, Node.name, Node.stats, Node.symlinkTarget,
            FsAct.isChownAt, FsAct.isContentAt, List.any_append, hu, hg, hm, ht]
      · simp [restoreNode, Node.name, FsAct.isContentAt]
    | some t =>
      constructor
      · simp [restoreNode, Node.name, Node.stats, Node.symlinkTarget,
          FsAct.isChownAt]
      · simp [restoreNode, Node.name, FsAct.isContentAt]
  | folder n s sy up td cs =>
    cases sy with
    | none =>
      constructor
      · have hkids := restoreList_no_chown_at_parent ex true (d - 1) (p ++ [n]) cs
        by_cases hd : d = 0
        all_goals
          cases hu : truthyI s.uid <;> cases hg : truthyI s.gid <;>
          cases hm : truthyI s.mode <;> cases ht : truthyI s.mtime <;>
          simp [restoreNode, Node.name, Node.stats, Node.symlinkTarget,
            FsAct.isChownAt, FsAct.isContentAt, List.any_append,
            hu, hg, hm, ht, hd, hkids]
      · simp [restoreNode, Node.name, FsAct.isContentAt]
    | some t =>
      constructor
      · simp [restoreNode, Node.name, Node.stats, Node.symlinkTarget,
          FsAct.isChownAt]
      · simp [restoreNode, Node.name, FsAct.isContentAt]

/-! ## Diff engine (`diff_trees_r` / `diff_trees`, `backup.py`)

The merge is a two-pointer sweep over both children lists sorted by
name; Python-2 unicode comparison is code-point lexicographic, as is
`String`'s order here.  `diff_trees_r` can in principle reach a
`raise Exception` arm (the final `else` of the name comparison), and
`diff_trees` raises `NameError` when `max_recurse_depth == 0`, so both
return `Except`. -/

/-- Python exceptions surfaced by the diff functions. -/
inductive PyErr where
  | nameError
  | unreachable
deriving DecidableEq, Repr

/-- Stable insertion into a sorted-by-name list: an element goes after
any existing element with an equal or smaller name, exactly as
Python's stable `sorted(key=lambda x: x.name)` keeps equal keys in
original order. -/
def insertByName (x : Node) : List Node → List Node
  | [] => [x]
  | y :: ys => if x.name < y.name then x :: y :: ys else y :: insertByName x ys

/-- Source: `sorted([f for f in children], key=lambda x: x.name)` — a stable
ascending sort by name. -/
def sortByName : List Node → List Node
  | [] => []
  | x :: xs => insertByName x (sortByName xs)

theorem sizeOf_insertByName (x : Node) (ys : List Node) :
    sizeOf (insertByName x ys) = 1 + sizeOf x + sizeOf ys := by
  induction ys with
  | nil => simp [insertByName]
  | cons y ys ih =>
    simp only [insertByName]
    split
    · simp
    · simp [ih]
      omega

theorem sizeOf_sortByName (cs : List Node) : sizeOf (sortByName cs) = sizeOf cs := by
  induction cs with
  | nil => rfl
  | cons c cs ih => simp [sortByName, sizeOf_insertByName, ih]

theorem sizeOf_childrenD_lt (n : Node) : sizeOf n.childrenD < sizeOf n := by
  cases n <;> simp [Node.childrenD]

/-- The five-way stat comparison of the equal-name case of
`diff_trees_r` (`size`, `mtime`, `mode`, `gid`, `uid`). -/
def statsMatch (a b : Node) : Bool :=
  a.stats.size == b.stats.size && a.stats.mtime == b.stats.mtime
    && a.stats.mode == b.stats.mode && a.stats.gid == b.stats.gid
    && a.stats.uid == b.stats.uid

/-- Source: `child.todelete = True`. -/
def setToDelete : Node → Node
  | .file n s sy up _ => .file n s sy up true
  | .folder n s sy up _ cs => .folder n s sy up true cs

/-- Source: `diff_node = copy.copy(local); diff_node.children = []` followed by
`if diff_node.size == remote.size and diff_node.mtime == remote.mtime: diff_node.uploaded = True`,
then the merged children are installed.  (`diff_trees_r` is only ever
invoked on folder pairs; the file case mirrors the shallow copy.) -/
def diffBase (l r : Node) (cs : List Node) : Node :=
  match l with
  | .file n s sy up td =>
    .file n s sy
      (if s.size == r.stats.size && s.mtime == r.stats.mtime then true else up) td
  | .folder n s sy up td _ =>
    .folder n s sy
      (if s.size == r.stats.size && s.mtime == r.stats.mtime then true else up) td cs

mutual
/-- Source: `diff_trees_r` (`backup.py`): merge of one folder pair, returning
`none` when the merged children list is empty
(`return diff_node if len(diff_node.children) > 0 else None`). -/
def diffTreesR (l r : Node) (d : Int) : Except PyErr (Option Node) := do
  let merged ← mergeStep (sortByName l.childrenD) (sortByName r.childrenD) d
  pure (if merged.length > 0 then some (diffBase l r merged) else none)
termination_by sizeOf l + sizeOf r
decreasing_by
  have h1 := sizeOf_childrenD_lt l
  have h2 := sizeOf_childrenD_lt r
  simp only [sizeOf_sortByName]
  omega

/-- The two-pointer merge loop of `diff_trees_r`, including the
post-loop extension of the leftover local tail (kept as-is) and remote
tail (flagged `todelete`).  In the equal-name case the kept child is
the remote node when all five stats match, otherwise the local node;
when both sides are folders and depth remains, the recursive diff
result replaces it (dropped entirely when that result is `None`). -/
def mergeStep (ls rs : List Node) (d : Int) : Except PyErr (List Node) :=
  match ls, rs with
  | [], rest => pure (rest.map setToDelete)
  | l :: ls', [] => pure (l :: ls')
  | l :: ls', r :: rs' =>
    if l.name = r.name then
      let base := if statsMatch l r then r else l
      if l.isFolder && r.isFolder then
        if d ≠ 0 then do
          let sub ← diffTreesR l r (d - 1)
          let rest ← mergeStep ls' rs' d
          match sub with
          | some t => pure (t :: rest)
          | none => pure rest
        else do
          let rest ← mergeStep ls' rs' d
          pure (base :: rest)
      else do
        let rest ← mergeStep ls' rs' d
        pure (base :: rest)
    else if l.name < r.name then do
      let rest ← mergeStep ls' (r :: rs') d
      pure (l :: rest)
    else if r.name < l.name then do
      let rest ← mergeStep (l :: ls') rs' d
      pure (setToDelete r :: rest)
    else
      throw .unreachable
termination_by sizeOf ls + sizeOf rs
decreasing_by
  all_goals simp only [List.cons.sizeOf_spec]
  all_goals omega
end

/-- Source: `diff_child = diff_node = copy.copy(local_root_node); diff_child.children = []`. -/
def emptyChangeRoot : Node → Node
  | .file n s sy up td => .file n s sy up td
  | .folder n s sy up td _ => .folder n s sy up td []

/-- Source: `diff_trees` (`backup.py`).  The guarded branch calls
`diff_trees_r` with NO depth argument (hence `-1`, unbounded); when
`max_recurse_depth == 0` nothing assigns `diff_child` and the
subsequent `if not diff_child:` raises `NameError`
(`UnboundLocalError`). -/
def diffTrees (l r : Node) (d : Int) : Except PyErr Node :=
  if d ≠ 0 then do
    let dc ← diffTreesR l r (-1)
    match dc with
    | some t => pure t
    | none => pure (emptyChangeRoot l)
  else throw .nameError


/-! ### Unfolding lemmas for the merge, and totality -/

theorem mergeStep_nil_left (rs : List Node) (d : Int) :
    mergeStep [] rs d = .ok (rs.map setToDelete) := by
  rw [mergeStep]; rfl

theorem mergeStep_nil_right (l : Node) (ls' : List Node) (d : Int) :
    mergeStep (l :: ls') [] d = .ok (l :: ls') := by
  rw [mergeStep]; rfl

theorem mergeStep_step_lt {l r : Node} (ls' rs' : List Node) (d : Int)
    {xs : List Node} (hlt : l.name < r.name)
    (hx : mergeStep ls' (r :: rs') d = .ok xs) :
    mergeStep (l :: ls') (r :: rs') d = .ok (l :: xs) := by
  rw [mergeStep, if_neg (ne_of_lt hlt), if_pos hlt, hx]; rfl

theorem mergeStep_step_gt {l r : Node} (ls' rs' : List Node) (d : Int)
    {xs : List Node} (hgt : r.name < l.name)
    (hx : mergeStep (l :: ls') rs' d = .ok xs) :
    mergeStep (l :: ls') (r :: rs') d = .ok (setToDelete r :: xs) := by
  rw [mergeStep, if_neg (ne_of_gt hgt), if_neg (lt_asymm hgt), if_pos hgt, hx]; rfl

theorem mergeStep_step_eq_nonfolders {l r : Node} (ls' rs' : List Node) (d : Int)
    {xs : List Node} (he : l.name = r.name)
    (hff : (l.isFolder && r.isFolder) = false)
    (hx : mergeStep ls' rs' d = .ok xs) :
    mergeStep (l :: ls') (r :: rs') d
      = .ok ((if statsMatch l r then r else l) :: xs) := by
  rw [mergeStep, if_pos he, if_neg (by simp [hff]), hx]; rfl

theorem mergeStep_step_eq_folders_depth0 {l r : Node} (ls' rs' : List Node)
    {xs : List Node} (he : l.name = r.name)
    (hff : (l.isFolder && r.isFolder) = true)
    (hx : mergeStep ls' rs' 0 = .ok xs) :
    mergeStep (l :: ls') (r :: rs') 0
      = .ok ((if statsMatch l r then r else l) :: xs) := by
  rw [mergeStep, if_pos he, if_pos hff, if_neg (by simp), hx]; rfl

theorem mergeStep_step_eq_folders_some {l r t : Node} (ls' rs' : List Node)
    (d : Int) {xs : List Node} (he : l.name = r.name)
    (hff : (l.isFolder && r.isFolder) = true) (hd : d ≠ 0)
    (hsub : diffTreesR l r (d - 1) = .ok (some t))
    (hx : mergeStep ls' rs' d = .ok xs) :
    mergeStep (l :: ls') (r :: rs') d = .ok (t :: xs) := by
  rw [mergeStep, if_pos he, if_pos hff, if_pos hd, hsub, hx]; rfl

theorem mergeStep_step_eq_folders_none {l r : Node} (ls' rs' : List Node)
    (d : Int) {xs : List Node} (he : l.name = r.name)
    (hff : (l.isFolder && r.isFolder) = true) (hd : d ≠ 0)
    (hsub : diffTreesR l r (d - 1) = .ok none)
    (hx : mergeStep ls' rs' d = .ok xs) :
    mergeStep (l :: ls') (r :: rs') d = .ok xs := by
  rw [mergeStep, if_pos he, if_pos hff, if_pos hd, hsub, hx]; rfl

theorem diffTreesR_eq (l r : Node) (d : Int) {xs : List Node}
    (hx : mergeStep (sortByName l.childrenD) (sortByName r.childrenD) d = .ok xs) :
    diffTreesR l r d = .ok (if xs.length > 0 then some (diffBase l r xs) else none) := by
  rw [diffTreesR, hx]; rfl

mutual
/-- Totality: `diff_trees_r` never raises: the `raise Exception` arm of the merge
is unreachable (string comparison is trichotomous). -/
theorem diffTreesR_ok (l r : Node) (d : Int) : ∃ o, diffTreesR l r d = .ok o := by
  obtain ⟨xs, hxs⟩ := mergeStep_ok (sortByName l.childrenD) (sortByName r.childrenD) d
  exact ⟨_, diffTreesR_eq l r d hxs⟩
termination_by sizeOf l + sizeOf r
decreasing_by
  have h1 := sizeOf_childrenD_lt l
  have h2 := sizeOf_childrenD_lt r
  simp only [sizeOf_sortByName]
  omega

/-- The merge loop never reaches its `raise` arm. -/
theorem mergeStep_ok (ls rs : List Node) (d : Int) : ∃ xs, mergeStep ls rs d = .ok xs := by
  match ls, rs with
  | [], rest => exact ⟨_, mergeStep_nil_left rest d⟩
  | l :: ls', [] => exact ⟨_, mergeStep_nil_right l ls' d⟩
  | l :: ls', r :: rs' =>
    rcases lt_trichotomy l.name r.name with hlt | he | hgt
    · obtain ⟨xs, hx⟩ := mergeStep_ok ls' (r :: rs') d
      exact ⟨_, mergeStep_step_lt ls' rs' d hlt hx⟩
    · by_cases hff : (l.isFolder && r.isFolder) = true
      · by_cases hd : d = 0
        · obtain ⟨xs, hx⟩ := mergeStep_ok ls' rs' d
          subst hd
          exact ⟨_, mergeStep_step_eq_folders_depth0 ls' rs' he hff hx⟩
        · obtain ⟨o, ho⟩ := diffTreesR_ok l r (d - 1)
          obtain ⟨xs, hx⟩ := mergeStep_ok ls' rs' d
          cases o with
          | some t => exact ⟨_, mergeStep_step_eq_folders_some ls' rs' d he hff hd ho hx⟩
          | none => exact ⟨_, mergeStep_step_eq_folders_none ls' rs' d he hff hd ho hx⟩
      · obtain ⟨xs, hx⟩ := mergeStep_ok ls' rs' d
        exact ⟨_, mergeStep_step_eq_nonfolders ls' rs' d he (by simpa using hff) hx⟩
    · obtain ⟨xs, hx⟩ := mergeStep_ok (l :: ls') rs' d
      exact ⟨_, mergeStep_step_gt ls' rs' d hgt hx⟩
termination_by sizeOf ls + sizeOf rs
decreasing_by
  all_goals simp only [List.cons.sizeOf_spec]
  all_goals omega
end

/-- C10: calling the top-level diff with `max_recurse_depth = 0` does
not return a changeset tree — the guarded branch leaves `diff_child`
unassigned and the following `if not diff_child:` raises an unhandled
`NameError` — while for every nonzero depth a tree is returned. -/
theorem c10_depth_zero_name_error (l r : Node) :
    diffTrees l r 0 = .error .nameError
    ∧ ∀ d : Int, d ≠ 0 → ∃ t, diffTrees l r d = .ok t := by
  constructor
  · rw [diffTrees, if_neg (by decide)]; rfl
  · intro d hd
    obtain ⟨o, ho⟩ := diffTreesR_ok l r (-1)
    cases o with
    | some t => exact ⟨t, by rw [diffTrees, if_pos hd, ho]; rfl⟩
    | none => exact ⟨emptyChangeRoot l, by rw [diffTrees, if_pos hd, ho]; rfl⟩

/-- Witness for `c10_depth_zero_name_error` at concrete trees and
depth `5`. -/
theorem c10_depth_zero_name_error_witness :
    diffTrees (.folder "" stSmall none false false [])
        (.folder "" stSmall none true false []) 0 = .error .nameError
    ∧ ∃ t, diffTrees (.folder "" stSmall none false false [])
        (.folder "" stSmall none true false []) 5 = .ok t :=
  ⟨(c10_depth_zero_name_error _ _).1,
   (c10_depth_zero_name_error _ _).2 5 (by decide)⟩

/-- C8: a folder pair whose merged changeset has zero children
collapses to `None` (first part), such a collapsed child is omitted
from its parent's changeset children (second part), while the
top-level diff returns a tree for every pair of trees (at the nonzero
depths where it returns at all — see C10): when the recursive diff of
the roots is empty, a shallow copy of the local root with an empty
children list is returned instead of nothing (third part). -/
theorem c8_empty_collapse :
    (∀ (l r : Node) (d : Int),
      diffTreesR l r d = .ok none
        ↔ mergeStep (sortByName l.childrenD) (sortByName r.childrenD) d = .ok [])
    ∧ (∀ (lc rc : Node) (ls' rs' : List Node) (d : Int) (xs : List Node),
        lc.name = rc.name → (lc.isFolder && rc.isFolder) = true → d ≠ 0 →
        diffTreesR lc rc (d - 1) = .ok none →
        mergeStep ls' rs' d = .ok xs →
        mergeStep (lc :: ls') (rc :: rs') d = .ok xs)
    ∧ (∀ (l r : Node) (d : Int), d ≠ 0 →
        ∃ t, diffTrees l r d = .ok t
          ∧ (diffTreesR l r (-1) = .ok none → t = emptyChangeRoot l)) := by
  refine ⟨?_, ?_, ?_⟩
  · intro l r d
    obtain ⟨xs, hx⟩ := mergeStep_ok (sortByName l.childrenD) (sortByName r.childrenD) d
    rw [diffTreesR_eq l r d hx, hx]
    cases xs <;> simp
  · intro lc rc ls' rs' d xs he hff hd hsub hx
    exact mergeStep_step_eq_folders_none ls' rs' d he hff hd hsub hx
  · intro l r d hd
    obtain ⟨o, ho⟩ := diffTreesR_ok l r (-1)
    cases o with
    | some t =>
      refine ⟨t, by rw [diffTrees, if_pos hd, ho]; rfl, ?_⟩
      intro hnone
      rw [ho] at hnone
      simp at hnone
    | none =>
      exact ⟨emptyChangeRoot l, by rw [diffTrees, if_pos hd, ho]; rfl, fun _ => rfl⟩

/-- A collapsing child pair for the C8 witness: same-named folders with
no children on either side. -/
def c8lc : Node := .folder "k" stSmall none false false []

/-- Remote side of the collapsing pair. -/
def c8rc : Node := .folder "k" stSmall none true false []

/-- Witness for `c8_empty_collapse`: the childless same-named folder
pair collapses, is omitted by its parent's merge, and the top-level
diff of two such roots still returns the shallow-copied root. -/
theorem c8_empty_collapse_witness :
    mergeStep [c8lc] [c8rc] (-1) = .ok []
    ∧ ∃ t, diffTrees (.folder "" stSmall none false false [c8lc])
          (.folder "" stSmall none true false [c8rc]) (-1) = .ok t
        ∧ (diffTreesR (.folder "" stSmall none false false [c8lc])
            (.folder "" stSmall none true false [c8rc]) (-1) = .ok none
              → t = emptyChangeRoot (.folder "" stSmall none false false [c8lc])) := by
  have hsub : diffTreesR c8lc c8rc ((-1 : Int) - 1) = .ok none := by
    simpa using diffTreesR_eq c8lc c8rc ((-1 : Int) - 1)
      (by simpa [c8lc, c8rc, Node.childrenD, sortByName]
        using mergeStep_nil_left [] ((-1 : Int) - 1))
  have h0 : mergeStep ([] : List Node) ([] : List Node) (-1 : Int) = .ok [] := by
    simpa using mergeStep_nil_left [] (-1)
  exact ⟨c8_empty_collapse.2.1 c8lc c8rc [] [] (-1) [] rfl rfl (by decide) hsub h0,
    c8_empty_collapse.2.2 _ _ (-1) (by decide)⟩

/-! ### C4: the concrete diff tie-break example -/

def stRootL : Stats := ⟨none, none, none, some 100, none, some 4096⟩
def stRootR : Stats := ⟨none, none, none, some 200, none, some 4096⟩
def stA : Stats := ⟨some 1, some 1, some 420, some 11, some 21, some 101⟩
def stB : Stats := ⟨some 1, some 1, some 420, some 12, some 22, some 102⟩

/-- Remote `b` stats: identical to `stB` in the five compared fields,
different `ctime` (which the diff does not compare). -/
def stBR : Stats := ⟨some 1, some 1, some 420, some 12, some 99, some 102⟩
def stC : Stats := ⟨some 1, some 1, some 493, some 13, some 23, some 103⟩
def stCR : Stats := ⟨some 1, some 1, some 493, some 13, some 98, some 103⟩
def stD : Stats := ⟨some 1, some 1, some 420, some 14, some 24, some 104⟩

def c4la : Node := .file "a" stA none false false
def c4lb : Node := .file "b" stB none false false
def c4lc : Node := .file "c" stC none false false
def c4rb : Node := .file "b" stBR none true false
def c4rc : Node := .file "c" stCR none true false
def c4rd : Node := .file "d" stD none true false

def c4Local : Node := .folder "" stRootL none false false [c4la, c4lb, c4lc]
def c4Remote : Node := .folder "" stRootR none true false [c4rb, c4rc, c4rd]

/-- C4: local children `{a, b, c}` against remote `{b, c, d}` with
`b`, `c` carrying identical size/mtime/mode/gid/uid on both sides: the
changeset folder's children are, in name order, the local `a`
(uploaded false, pending upload), the remote `b` and `c` (already
marked uploaded), and the remote `d` with `todelete = true`. -/
theorem c4_diff_tiebreak :
    diffTrees c4Local c4Remote (-1)
      = .ok (.folder "" stRootL none false false
          [c4la, c4rb, c4rc, .file "d" stD none true true]) := by
  have hab : ("a" : String) < "b" := by simp; decide
  have hbc : ("b" : String) < "c" := by simp; decide
  have hcd : ("c" : String) < "d" := by simp; decide
  have h4 : mergeStep ([] : List Node) [c4rd] (-1)
      = .ok [Node.file "d" stD none true true] := by
    simpa [setToDelete, c4rd] using mergeStep_nil_left [c4rd] (-1)
  have h3 : mergeStep [c4lc] [c4rc, c4rd] (-1)
      = .ok [c4rc, Node.file "d" stD none true true] := by
    have h := mergeStep_step_eq_nonfolders ([] : List Node) [c4rd] (-1)
      (l := c4lc) (r := c4rc) rfl rfl h4
    have hsm : statsMatch c4lc c4rc = true := by decide
    simpa [hsm] using h
  have h2 : mergeStep [c4lb, c4lc] [c4rb, c4rc, c4rd] (-1)
      = .ok [c4rb, c4rc, Node.file "d" stD none true true] := by
    have h := mergeStep_step_eq_nonfolders [c4lc] [c4rc, c4rd] (-1)
      (l := c4lb) (r := c4rb) rfl rfl h3
    have hsm : statsMatch c4lb c4rb = true := by decide
    simpa [hsm] using h
  have h1 : mergeStep [c4la, c4lb, c4lc] [c4rb, c4rc, c4rd] (-1)
      = .ok [c4la, c4rb, c4rc, Node.file "d" stD none true true] :=
    mergeStep_step_lt [c4lb, c4lc] [c4rc, c4rd] (-1)
      (by simpa [c4la, c4rb, Node.name] using hab) h2
  have hsortL : sortByName [c4la, c4lb, c4lc] = [c4la, c4lb, c4lc] := by
    simp [sortByName, insertByName, c4la, c4lb, c4lc, Node.name, hab, hbc]
  have hsortR : sortByName [c4rb, c4rc, c4rd] = [c4rb, c4rc, c4rd] := by
    simp [sortByName, insertByName, c4rb, c4rc, c4rd, Node.name, hbc, hcd]
  have h1' : mergeStep (sortByName c4Local.childrenD)
      (sortByName c4Remote.childrenD) (-1)
      = .ok [c4la, c4rb, c4rc, Node.file "d" stD none true true] := by
    rw [show c4Local.childrenD = [c4la, c4lb, c4lc] from rfl,
      show c4Remote.childrenD = [c4rb, c4rc, c4rd] from rfl, hsortL, hsortR]
    exact h1
  have hR : diffTreesR c4Local c4Remote (-1)
      = .ok (some (.folder "" stRootL none false false
          [c4la, c4rb, c4rc, .file "d" stD none true true])) := by
    have h := diffTreesR_eq c4Local c4Remote (-1) h1'
    simpa [diffBase, c4Local, c4Remote, Node.stats, stRootL, stRootR] using h
  rw [diffTrees, if_pos (by decide), hR]
  rfl

/-- Witness for `c3_amended_uploaded_skip`: the file no-op and, at a
concrete already-uploaded folder facing a conflicting remote
non-directory, the still-performed deletion. -/
theorem c3_amended_uploaded_skip_witness :
    uploadNode envOk true (-1) [] (.file "w" stSmall none true false)
      = ([], .file "w" stSmall none true false)
    ∧ (uploadNode envNonDir true (-1) []
        (.folder "w" stSmall none true false [])).1.any (RAct.isDelAt ["w"]) = true := by
  refine ⟨c3_amended_uploaded_skip.1 envOk true (-1) [] "w" stSmall none false, ?_⟩
  have h := (c3_amended_uploaded_skip.2 envNonDir true (-1) [] "w" stSmall
    false []).2.2.2.1 rfl
  simpa using h

/-! ## Trusted remote-tree walk (`NFolder.walk_remote_tree_r`)

The remote namespace is modeled as a tree of per-folder metadata
objects: each remote folder holds an optional metadata document (the
`.dropboxbackupmeta` object; `none` when `get_file` 404s or the JSON
cannot be parsed, both of which leave `remote_metadata = {}`) and its
named subfolders.  The walk reads the current folder's document and
rebuilds child nodes from the records in its `children` list; a record
whose `_type` is neither `NFile` nor `NFolder` raises
`UnknownNodeTypeException`, which the per-child `try/except` catches
and logs, skipping only that record. -/

/-- Python exceptions arising during the walk. -/
inductive WalkExc where
  | unknownNodeType
  | keyError
deriving DecidableEq, Repr

mutual
/-- One remote folder: its optional metadata object and its
subfolders. -/
inductive StoreNode where
  | mk (doc : Option Doc) (subs : StoreSubs)

/-- Named subfolders of a remote folder. -/
inductive StoreSubs where
  | nil
  | cons (name : String) (store : StoreNode) (rest : StoreSubs)
end

mutual
/-- Source: `walk_remote_tree_r`: returns the children constructed for the
current folder.  `selfSym` is the walker's own `symlink_target` (the
walk does nothing when it is set); a present document without a
`children` key raises `KeyError`, which propagates out of this call
(to be caught by the per-child handler of the parent, which then drops
the child being recursed into). -/
def walkStore (selfSym : Option String) (st : StoreNode) (d : Int) :
    Except WalkExc (List Node) :=
  match selfSym with
  | some _ => .ok []
  | none =>
    match st with
    | .mk doc subs =>
      match doc with
      | none => .ok []
      | some dc =>
        match dc.childrenField with
        | none => .error .keyError
        | some recs => .ok (decodeRecs subs d recs)

/-- The `for child in remote_metadata["children"]` loop: each record is
decoded inside a `try` whose handler logs and skips the record. -/
def decodeRecs (subs : StoreSubs) (d : Int) : List Doc → List Node
  | [] => []
  | rec₀ :: rest =>
    match decodeChild subs d rec₀ with
    | .ok nd => nd :: decodeRecs subs d rest
    | .error _ => decodeRecs subs d rest

/-- Decoding of one serialized child record: an `NFile` tag yields a
file node, an `NFolder` tag a folder node (recursing into the
subfolder's own metadata object when depth remains and the record has
no `symlink_target` key), any other tag raises
`UnknownNodeTypeException`.  The constructed node is marked
`uploaded = True` and receives the record's `symlink_target` when
present. -/
def decodeChild (subs : StoreSubs) (d : Int) (rec₀ : Doc) :
    Except WalkExc Node :=
  if rec₀.tag = "NFile" then
    .ok (.file rec₀.name rec₀.stats rec₀.symlinkTarget true false)
  else if rec₀.tag = "NFolder" then
    (if d ≠ 0 ∧ rec₀.symlinkTarget = none then
      walkSubNamed subs rec₀.name (d - 1)
    else .ok []).map
      (fun kids => .folder rec₀.name rec₀.stats rec₀.symlinkTarget true false kids)
  else
    .error .unknownNodeType

/-- Recursion into the subfolder with the given name: fetching the
metadata object of a folder that does not exist 404s, leaving the
child folder with no children. -/
def walkSubNamed (subs : StoreSubs) (name : String) (d : Int) :
    Except WalkExc (List Node) :=
  match subs with
  | .nil => .ok []
  | .cons n st rest =>
    if n = name then walkStore none st d else walkSubNamed rest name d
end

/-! Constructor-level unfolding lemmas for the walk (these functions
are compiled by well-founded recursion, so `rfl` does not reduce
them). -/

theorem walkStore_sym (t : String) (st : StoreNode) (d : Int) :
    walkStore (some t) st d = .ok [] := by
  rw [walkStore.eq_def]

theorem walkStore_noDoc (subs : StoreSubs) (d : Int) :
    walkStore none (.mk none subs) d = .ok [] := by
  rw [walkStore.eq_def]

theorem walkStore_doc (dc : Doc) (subs : StoreSubs) (d : Int) :
    walkStore none (.mk (some dc) subs) d
      = (match dc.childrenField with
        | none => .error .keyError
        | some recs => .ok (decodeRecs subs d recs)) := by
  rw [walkStore.eq_def]

theorem decodeRecs_nil (subs : StoreSubs) (d : Int) :
    decodeRecs subs d [] = [] := by
  rw [decodeRecs.eq_def]

theorem decodeRecs_cons (subs : StoreSubs) (d : Int) (rec₀ : Doc)
    (rest : List Doc) :
    decodeRecs subs d (rec₀ :: rest)
      = (match decodeChild subs d rec₀ with
        | .ok nd => nd :: decodeRecs subs d rest
        | .error _ => decodeRecs subs d rest) := by
  rw [decodeRecs.eq_def]

theorem walkSubNamed_nil (name : String) (d : Int) :
    walkSubNamed .nil name d = .ok [] := by
  rw [walkSubNamed.eq_def]

theorem walkSubNamed_cons (n : String) (st : StoreNode) (rest : StoreSubs)
    (name : String) (d : Int) :
    walkSubNamed (.cons n st rest) name d
      = if n = name then walkStore none st d else walkSubNamed rest name d := by
  rw [walkSubNamed.eq_def]

/-- A store whose root document has one corrupted record (unknown tag
`NSocket`) followed by a valid file record. -/
def c2Store : StoreNode :=
  .mk (some (.mk "NFolder" "" false stSmall none
    (some [.mk "NSocket" "weird" true stSmall none none,
           .mk "NFile" "good" true stSmall none none])))
    .nil

/-- C2 counterexample: walking a metadata object whose first child
record has an unrecognized `_type` does not propagate any error to the
caller — the walk returns successfully and still deserializes the
valid sibling. -/
theorem c2_counterexample :
    walkStore none c2Store (-1)
      = .ok [.file "good" stSmall none true false] := by
  simp [walkStore.eq_def, decodeRecs.eq_def, decodeChild.eq_def,
    walkSubNamed.eq_def, c2Store, Doc.childrenField, Doc.tag, Doc.name,
    Doc.stats, Doc.symlinkTarget]

/-- C2 (amended): an unrecognized `_type` tag during remote-tree
deserialization does raise `UnknownNodeTypeException`, but the
exception is caught by the per-child `try/except` of the walk loop
itself: the record is skipped with a logged warning, the remaining
siblings are still processed, and nothing propagates to the caller. -/
theorem c2_amended_unknown_type_skipped (subs : StoreSubs) (d : Int)
    (rec₀ : Doc) (rest : List Doc)
    (h1 : rec₀.tag ≠ "NFile") (h2 : rec₀.tag ≠ "NFolder") :
    decodeChild subs d rec₀ = .error .unknownNodeType
    ∧ decodeRecs subs d (rec₀ :: rest) = decodeRecs subs d rest := by
  have hc : decodeChild subs d rec₀ = .error .unknownNodeType := by
    rw [decodeChild, if_neg h1, if_neg h2]
  exact ⟨hc, by rw [decodeRecs, hc]⟩

/-- Witness for `c2_amended_unknown_type_skipped` at the corrupted
record of `c2Store`. -/
theorem c2_amended_unknown_type_skipped_witness :
    decodeChild .nil (-1) (.mk "NSocket" "weird" true stSmall none none)
      = .error .unknownNodeType
    ∧ decodeRecs .nil (-1)
        [.mk "NSocket" "weird" true stSmall none none,
         .mk "NFile" "good" true stSmall none none]
      = decodeRecs .nil (-1) [.mk "NFile" "good" true stSmall none none] :=
  c2_amended_unknown_type_skipped .nil (-1) _ _ (by decide) (by decide)

/-! ### C6: serialize / deserialize round trip -/

mutual
/-- Flag normalizer: the trusted walk marks every rebuilt node
`uploaded = True` and leaves `todelete` at its constructor default
`False`; shape, names, stats, symlink targets and children are
untouched. -/
def normFlags : Node → Node
  | .file n s sy _ _ => .file n s sy true false
  | .folder n s sy _ _ cs => .folder n s sy true false (normFlagsList cs)

/-- The map of `normFlags` over a sibling list. -/
def normFlagsList : List Node → List Node
  | [] => []
  | c :: cs => normFlags c :: normFlagsList cs
end

/-- Distinctness of sibling names. -/
def nodupNames : List Node → Bool
  | [] => true
  | c :: cs => !(cs.map Node.name).contains c.name && nodupNames cs

mutual
/-- Well-formedness assumed by the round trip: no symlink target is
the empty string (Python truthiness would drop it from the
serialization), a symlink folder has no children (spec invariant: such
a folder is never descended), and sibling names are distinct (spec
invariant). -/
def wfNode : Node → Bool
  | .file _ _ sy _ _ => sy != some ""
  | .folder _ _ sy _ _ cs =>
    (sy != some "") && (sy == none || cs.isEmpty) && nodupNames cs && wfList cs

/-- Conjunction of `wfNode` over a sibling list. -/
def wfList : List Node → Bool
  | [] => true
  | c :: cs => wfNode c && wfList cs
end

mutual
/-- The remote layout after uploading `n` with per-folder metadata
objects serialized at unbounded depth without uploaded-only filtering:
each folder's store holds `encodable(max_recurse_depth=-1, only_uploaded=False)`
of that folder, with the subfolders' stores keyed by name. -/
def mkStore : Node → StoreNode
  | .file _ _ _ _ _ => .mk none .nil
  | .folder nm st sy up td cs =>
    .mk (some (encodableNode (-1) false (.folder nm st sy up td cs))) (mkSubs cs)

/-- Subfolder stores of a children list (file children own no store). -/
def mkSubs : List Node → StoreSubs
  | [] => .nil
  | c :: cs =>
    match c with
    | .folder nm _ _ _ _ _ => .cons nm (mkStore c) (mkSubs cs)
    | .file _ _ _ _ _ => mkSubs cs
end

theorem encodableList_false (d : Int) (cs : List Node) :
    encodableList d false cs = cs.map (encodableNode d false) := by
  induction cs with
  | nil => rfl
  | cons c cs ih => simp [encodableList, ih]

theorem symEnc_of_wf {sy : Option String} (h : (sy != some "") = true) :
    symEnc sy = sy := by
  cases sy with
  | none => rfl
  | some t => simp_all [symEnc]

theorem wfList_mem {cs : List Node} {c : Node} (hwf : wfList cs = true)
    (hm : c ∈ cs) : wfNode c = true := by
  induction cs with
  | nil => simp at hm
  | cons x xs ih =>
    rw [wfList] at hwf
    simp only [Bool.and_eq_true] at hwf
    rcases List.mem_cons.mp hm with rfl | hm'
    · exact hwf.1
    · exact ih hwf.2 hm'

/-- Looking the name of a folder child up among the subfolder stores
finds exactly that child's store, provided sibling names are
distinct. -/
theorem walkSubNamed_mkSubs (cs : List Node) (c : Node) (d : Int)
    (hmem : c ∈ cs) (hfold : c.isFolder = true)
    (hnodup : nodupNames cs = true) :
    walkSubNamed (mkSubs cs) c.name d = walkStore none (mkStore c) d := by
  induction cs with
  | nil => simp at hmem
  | cons x xs ih =>
    rw [nodupNames] at hnodup
    simp only [Bool.and_eq_true, Bool.not_eq_true'] at hnodup
    rcases List.mem_cons.mp hmem with rfl | hm'
    · cases c with
      | file _ _ _ _ _ => simp [Node.isFolder] at hfold
      | folder nm st sy up td cs' =>
        rw [mkSubs, walkSubNamed_cons,
          if_pos (show nm = (Node.folder nm st sy up td cs').name from rfl)]
    · cases x with
      | file _ _ _ _ _ =>
        rw [mkSubs]
        exact ih hm' hnodup.2
      | folder nm st sy up td cs' =>
        have hname : ¬ (nm = c.name) := by
          intro hx
          have hc : (xs.map Node.name).contains nm = true := by
            rw [hx]
            simp only [List.contains_eq_any_beq, List.any_eq_true]
            exact ⟨c.name, List.mem_map_of_mem Node.name hm', by simp⟩
          have h1 := hnodup.1
          rw [show (Node.folder nm st sy up td cs').name = nm from rfl] at h1
          rw [hc] at h1
          cases h1
        rw [mkSubs, walkSubNamed_cons, if_neg hname]
        exact ih hm' hnodup.2

/-- One-step unfolding of `decodeChild`. -/
theorem decodeChild_eval (subs : StoreSubs) (d : Int) (rec₀ : Doc) :
    decodeChild subs d rec₀
      = if rec₀.tag = "NFile" then
          .ok (.file rec₀.name rec₀.stats rec₀.symlinkTarget true false)
        else if rec₀.tag = "NFolder" then
          (if d ≠ 0 ∧ rec₀.symlinkTarget = none then
            walkSubNamed subs rec₀.name (d - 1)
          else .ok []).map
            (fun kids => .folder rec₀.name rec₀.stats rec₀.symlinkTarget true false kids)
        else .error .unknownNodeType := by
  rw [decodeChild.eq_def]

/-- Decoding the serialized records of a well-formed sibling list
reproduces the siblings up to the uploaded/todelete flags, provided
subfolder lookups resolve to the corresponding recursive walks. -/
theorem decodeRecs_encoded (subs : StoreSubs) (d dd : Int) (cs : List Node)
    (hd : d ≠ 0) (hwf : wfList cs = true)
    (hsub : ∀ c ∈ cs, c.isFolder = true → c.symlinkTarget = none →
      walkSubNamed subs c.name (d - 1) = .ok (normFlagsList c.childrenD)) :
    decodeRecs subs d (cs.map (encodableNode dd false)) = normFlagsList cs := by
  induction cs with
  | nil => simpa using decodeRecs_nil subs d
  | cons c cs ih =>
    rw [wfList] at hwf
    simp only [Bool.and_eq_true] at hwf
    have ih' := ih hwf.2
      (fun c' hm hf hs => hsub c' (List.mem_cons_of_mem _ hm) hf hs)
    rw [List.map_cons, decodeRecs_cons]
    cases c with
    | file nm st sy up td =>
      have hse : symEnc sy = sy := symEnc_of_wf (by
        have h1 := hwf.1
        rw [wfNode] at h1
        exact h1)
      rw [show encodableNode dd false (Node.file nm st sy up td)
          = Doc.mk "NFile" nm up st (symEnc sy) none from rfl,
        decodeChild_eval]
      simp only [Doc.tag, Doc.name, Doc.stats, Doc.symlinkTarget, if_true]
      rw [ih', hse]
      rfl
    | folder nm st sy up td cs' =>
      have h1 := hwf.1
      rw [wfNode] at h1
      simp only [Bool.and_eq_true] at h1
      rw [show encodableNode dd false (Node.folder nm st sy up td cs')
          = Doc.mk "NFolder" nm up st (symEnc sy)
              (if dd ≠ 0 then some (encodableList (dd - 1) false cs') else none)
          from rfl,
        decodeChild_eval]
      cases sy with
      | none =>
        have hsubc := hsub (Node.folder nm st none up td cs')
          (List.mem_cons_self _ _) rfl rfl
        rw [show (Node.folder nm st none up td cs').name = nm from rfl,
          show (Node.folder nm st none up td cs').childrenD = cs' from rfl]
          at hsubc
        show (match (if d ≠ 0 ∧ (none : Option String) = none then
                walkSubNamed subs nm (d - 1)
              else Except.ok []).map
              (fun kids => Node.folder nm st none true false kids) with
          | Except.ok nd => nd :: decodeRecs subs d (List.map (encodableNode dd false) cs)
          | Except.error _ => decodeRecs subs d (List.map (encodableNode dd false) cs))
          = normFlagsList (Node.folder nm st none up td cs' :: cs)
        rw [if_pos ⟨hd, rfl⟩, hsubc]
        show Node.folder nm st none true false (normFlagsList cs')
            :: decodeRecs subs d (List.map (encodableNode dd false) cs)
          = normFlagsList (Node.folder nm st none up td cs' :: cs)
        rw [ih']
        rfl
      | some t =>
        have hse : symEnc (some t) = some t := symEnc_of_wf h1.1.1.1
        have hempty : cs' = [] := by
          have h2 := h1.1.1.2
          rw [show ((some t : Option String) == none) = false from rfl] at h2
          simp only [Bool.false_or] at h2
          exact List.isEmpty_iff.mp h2
        subst hempty
        show (match (if d ≠ 0 ∧ symEnc (some t) = none then
                walkSubNamed subs nm (d - 1)
              else Except.ok []).map
              (fun kids => Node.folder nm st (symEnc (some t)) true false kids) with
          | Except.ok nd => nd :: decodeRecs subs d (List.map (encodableNode dd false) cs)
          | Except.error _ => decodeRecs subs d (List.map (encodableNode dd false) cs))
          = normFlagsList (Node.folder nm st (some t) up td [] :: cs)
        rw [hse, if_neg (by rintro ⟨-, hcc⟩; simp at hcc)]
        show Node.folder nm st (some t) true false []
            :: decodeRecs subs d (List.map (encodableNode dd false) cs)
          = normFlagsList (Node.folder nm st (some t) up td [] :: cs)
        rw [ih']
        rfl

/-- The serialize-then-deserialize round trip, generalized over the
(negative, i.e. unbounded) walk depth for the induction. -/
theorem roundtripAux (n : Node) (d : Int) (hwf : wfNode n = true)
    (hd : d < 0) :
    walkStore none (mkStore n) d = .ok (normFlagsList n.childrenD) := by
  match n with
  | .file nm st sy up td =>
    rw [mkStore, walkStore_noDoc]
    rfl
  | .folder nm st sy up td cs =>
    rw [wfNode] at hwf
    simp only [Bool.and_eq_true] at hwf
    rw [mkStore,
      show encodableNode (-1) false (Node.folder nm st sy up td cs)
        = Doc.mk "NFolder" nm up st (symEnc sy)
            (some (encodableList (-2) false cs)) from rfl,
      walkStore_doc]
    show Except.ok (decodeRecs (mkSubs cs) d (encodableList (-2) false cs))
        = Except.ok (normFlagsList (Node.folder nm st sy up td cs).childrenD)
    rw [encodableList_false,
      show (Node.folder nm st sy up td cs).childrenD = cs from rfl,
      decodeRecs_encoded (mkSubs cs) d (-2) cs (by omega) hwf.2]
    intro c hm hf hs
    rw [walkSubNamed_mkSubs cs c (d - 1) hm hf hwf.1.2]
    have hwc : wfNode c = true := wfList_mem hwf.2 hm
    exact roundtripAux c (d - 1) hwc (by omega)
termination_by sizeOf n
decreasing_by
  have hlt := List.sizeOf_lt_of_mem hm
  simp only [Node.folder.sizeOf_spec]
  omega

/-- C6: for every well-formed finite tree, serializing every folder's
metadata with unbounded depth (`max_recurse_depth = -1`) and no
uploaded-only filtering, then deserializing via the trusted-mode
remote-tree walk, reproduces the tree exactly — File/Folder shape,
children, names, stat attributes (uid, gid, mode, mtime, ctime, size)
and recorded symlink targets; only the `uploaded`/`todelete` flags are
normalized, every rebuilt node being marked uploaded. -/
theorem c6_serialize_roundtrip (n : Node) (hwf : wfNode n = true) :
    walkStore none (mkStore n) (-1) = .ok (normFlagsList n.childrenD) :=
  roundtripAux n (-1) hwf (by norm_num)

/-- A nested concrete tree for the C6 witness: plain file, symlink
file, subfolder with its own child, symlink folder. -/
def c6Tree : Node :=
  .folder "" stSmall none false false
    [.file "f1" stA none false false,
     .file "ln" stB (some "target") true false,
     .folder "sub" stC none true false
       [.file "inner" stD none true false],
     .folder "symd" stD (some "dtarget") false false []]

/-- Witness for `c6_serialize_roundtrip` at `c6Tree`. -/
theorem c6_serialize_roundtrip_witness :
    walkStore none (mkStore c6Tree) (-1)
      = .ok [.file "f1" stA none true false,
             .file "ln" stB (some "target") true false,
             .folder "sub" stC none true false
               [.file "inner" stD none true false],
             .folder "symd" stD (some "dtarget") true false []] :=
  c6_serialize_roundtrip c6Tree (by decide)

/-! ## Index rebuild (`NFolder.rewrite_index_without_assumption_tree_r`)

The remote namespace is modeled as the actual object listing: each
remote directory carries its optional readable metadata object (`none`
covers both a 404 and an unparsable body, either of which leaves
`remote_metadata = {}` and `someone_has_meta` untouched) and its listed
entries (plain objects or subdirectories).  Writes of rebuilt metadata
objects are collected; the model's `put_file` succeeds. -/

mutual
/-- One remote directory as the rebuild sees it. -/
inductive RemoteDir where
  | mk (meta : Option Doc) (entries : RemoteEntries)

/-- The `metadata["contents"]` listing of a remote directory. -/
inductive RemoteEntries where
  | nil
  | fileE (name : String) (rest : RemoteEntries)
  | dirE (name : String) (sub : RemoteDir) (rest : RemoteEntries)
end

/-- The metadata filename `.dropboxbackupmeta`. -/
def METADATA_FILENAME : String := ".dropboxbackupmeta"

/-- Source: `name.endswith(".symlink")` on code points. -/
def endsWithSymlinkExt (n : String) : Bool :=
  decide (8 ≤ n.data.length) && n.data.drop (n.data.length - 8) == ".symlink".data

/-- Source: `name[:-8] if name.endswith(".symlink") else name`. -/
def stripSymSuffix (n : String) : String :=
  if endsWithSymlinkExt n then String.mk (n.data.take (n.data.length - 8)) else n

/-- Lookup `metadata_children[name]` over the records of the loaded metadata
object (`{child["name"]: child for child in ...}`; sibling names are
unique in practice, so first match suffices). -/
def findRec : List Doc → String → Option Doc
  | [], _ => none
  | r :: rs, nm => if r.name = nm then some r else findRec rs nm

/-- Source: `remote_metadata["children"] if "children" in remote_metadata else []`,
with `remote_metadata = {}` when the object was unreadable. -/
def metaChildrenOf : Option Doc → List Doc
  | none => []
  | some dc => dc.childrenField.getD []

/-- Result of reconciling one directory: the node children built into
`self.children`, the returned `someone_has_meta` flag, and the
metadata documents written along the way. -/
structure RebuildRes where
  children : List Node
  someone : Bool
  writes : List Doc
deriving Repr

mutual
/-- Source: `rewrite_index_without_assumption_tree_r` for one directory.
`selfName`/`selfStats`/`selfUploaded` describe the node the caller
constructed for this directory (the root is `NRootFolder` with class
defaults: empty name, all-`None` stats, `uploaded = False`); its
`symlink_target` is never set on this path.  `someone_has_meta` starts
true iff the directory's own metadata object was readable, each listed
entry is processed in order, and at the end the reconciled metadata
object (`encodable(max_recurse_depth=1, only_uploaded=True)`) is
written iff `rewrite_index and someone_has_meta`. -/
def rewriteDir (rw_ : Bool) (d : Int) (selfName : String) (selfStats : Stats)
    (selfUploaded : Bool) : RemoteDir → RebuildRes
  | .mk meta entries =>
    let someone0 := meta.isSome
    let r := rewriteEntries rw_ d (metaChildrenOf meta) entries
    let someone := someone0 || r.someone
    let selfNode := Node.folder selfName selfStats none selfUploaded false r.children
    { children := r.children
      someone := someone
      writes := r.writes
        ++ (if rw_ && someone then [encodableNode 1 true selfNode] else []) }

/-- The `for child in metadata["contents"]` loop.  A listed object
first has the `.symlink` suffix stripped; the metadata filename itself
is skipped; a file known to the (stale) metadata is rebuilt from that
record (an `NFolder`-tagged record yields a childless folder node —
the symlink case — anything else a file node), marked uploaded, with
the record's symlink target; an unknown file is skipped.  A listed
directory is recursed into when depth remains (stats taken from the
metadata record when present, else the all-`None` template, `uploaded
= True`), and is included — with `someone_has_meta` set — exactly when
`max_recurse_depth == 0 or grandchild_has_meta`. -/
def rewriteEntries (rw_ : Bool) (d : Int) (mc : List Doc) :
    RemoteEntries → RebuildRes
  | .nil => ⟨[], false, []⟩
  | .fileE nm rest =>
    let sname := stripSymSuffix nm
    let r := rewriteEntries rw_ d mc rest
    if sname = METADATA_FILENAME then r
    else
      match findRec mc sname with
      | some cm =>
        let nd := if cm.tag = "NFolder" then
            Node.folder sname cm.stats cm.symlinkTarget true false []
          else Node.file sname cm.stats cm.symlinkTarget true false
        ⟨nd :: r.children, r.someone, r.writes⟩
      | none => r
  | .dirE nm sub rest =>
    let sname := stripSymSuffix nm
    let sa := ((findRec mc sname).map Doc.stats).getD statTemplate
    let sres := if d ≠ 0 then rewriteDir rw_ (d - 1) sname sa true sub
      else ⟨[], false, []⟩
    let r := rewriteEntries rw_ d mc rest
    if d = 0 ∨ sres.someone = true then
      ⟨Node.folder sname sa none true false sres.children :: r.children,
        true, sres.writes ++ r.writes⟩
    else
      ⟨r.children, r.someone, sres.writes ++ r.writes⟩
end

mutual
/-- Does this directory, or any descendant, have a readable metadata
object? -/
def hasMetaAnywhere : RemoteDir → Bool
  | .mk meta entries => meta.isSome || entriesHaveMeta entries

/-- Disjunction of `hasMetaAnywhere` over listed entries. -/
def entriesHaveMeta : RemoteEntries → Bool
  | .nil => false
  | .fileE _ rest => entriesHaveMeta rest
  | .dirE _ sub rest => hasMetaAnywhere sub || entriesHaveMeta rest
end

mutual
/-- A directory with no metadata evidence anywhere reconciles to
`someone_has_meta = false` and performs no metadata writes. -/
theorem rewriteDir_noMeta (rw_ : Bool) (d : Int) (sn : String) (st : Stats)
    (su : Bool) (dir : RemoteDir) (hm : hasMetaAnywhere dir = false)
    (hd : d < 0) :
    (rewriteDir rw_ d sn st su dir).someone = false
    ∧ (rewriteDir rw_ d sn st su dir).writes = [] := by
  match dir with
  | .mk meta entries =>
    rw [hasMetaAnywhere] at hm
    simp only [Bool.or_eq_false_iff] at hm
    have hr := rewriteEntries_noMeta rw_ d (metaChildrenOf meta) entries hm.2 hd
    rw [rewriteDir]
    simp only [hm.1, hr.1, hr.2, Bool.or_self, Bool.and_false, if_false,
      List.append_nil, Bool.false_or]
    constructor <;> first | rfl | trivial

/-- Entry lists with no metadata evidence contribute no
`someone_has_meta` and no writes. -/
theorem rewriteEntries_noMeta (rw_ : Bool) (d : Int) (mc : List Doc)
    (es : RemoteEntries) (hm : entriesHaveMeta es = false) (hd : d < 0) :
    (rewriteEntries rw_ d mc es).someone = false
    ∧ (rewriteEntries rw_ d mc es).writes = [] := by
  match es with
  | .nil => exact ⟨rfl, rfl⟩
  | .fileE nm rest =>
    rw [entriesHaveMeta] at hm
    have hr := rewriteEntries_noMeta rw_ d mc rest hm hd
    rw [rewriteEntries]
    split
    · exact hr
    · match hfind : findRec mc (stripSymSuffix nm) with
      | some cm => exact ⟨hr.1, hr.2⟩
      | none => exact hr
  | .dirE nm sub rest =>
    rw [entriesHaveMeta] at hm
    simp only [Bool.or_eq_false_iff] at hm
    have hsub := rewriteDir_noMeta rw_ (d - 1) (stripSymSuffix nm)
      (((findRec mc (stripSymSuffix nm)).map Doc.stats).getD statTemplate)
      true sub hm.1 (by omega)
    have hr := rewriteEntries_noMeta rw_ d mc rest hm.2 hd
    rw [rewriteEntries]
    simp only [if_pos (by omega : d ≠ 0)]
    rw [if_neg (by
      rintro (h0 | hs)
      · omega
      · rw [hsub.1] at hs
        cases hs)]
    simp only [hsub.2, List.nil_append]
    exact ⟨hr.1, hr.2⟩
end

/-- C7: during index reconciliation with unbounded depth (the `rebuild`
command's default), a remotely-listed directory with no readable
metadata object anywhere in its subtree reports
`someone_has_meta = false`, writes no metadata object in its subtree,
and is not included as a child by its parent's reconciliation — the
parent's result is as if the listing entry were absent, so no written
metadata references it. -/
theorem c7_rebuild_drops_metaless (dir : RemoteDir) (rw_ : Bool) (d : Int)
    (hm : hasMetaAnywhere dir = false) (hd : d < 0) :
    (∀ sn st su, (rewriteDir rw_ d sn st su dir).someone = false
      ∧ (rewriteDir rw_ d sn st su dir).writes = [])
    ∧ (∀ mc nm rest, rewriteEntries rw_ d mc (.dirE nm dir rest)
        = rewriteEntries rw_ d mc rest) := by
  constructor
  · intro sn st su
    exact rewriteDir_noMeta rw_ d sn st su dir hm hd
  · intro mc nm rest
    have hsub := rewriteDir_noMeta rw_ (d - 1) (stripSymSuffix nm)
      (((findRec mc (stripSymSuffix nm)).map Doc.stats).getD statTemplate)
      true dir hm (by omega)
    rw [rewriteEntries]
    simp only [if_pos (by omega : d ≠ 0)]
    rw [if_neg (by
      rintro (h0 | hs)
      · omega
      · rw [hsub.1] at hs
        cases hs)]
    rw [hsub.2]
    rfl

/-- Witness for `c7_rebuild_drops_metaless`: a directory whose only
content is a metadata-less subdirectory, reconciled at the default
depth `-1`. -/
theorem c7_rebuild_drops_metaless_witness :
    (rewriteDir true (-1) "" statTemplate false
        (.mk none (.dirE "empty" (.mk none .nil) .nil))).someone = false
    ∧ (rewriteDir true (-1) "" statTemplate false
        (.mk none (.dirE "empty" (.mk none .nil) .nil))).writes = []
    ∧ rewriteEntries true (-1) [] (.dirE "ghost" (.mk none .nil) .nil)
        = rewriteEntries true (-1) [] .nil := by
  refine ⟨?_, ?_, ?_⟩
  · exact ((c7_rebuild_drops_metaless (.mk none (.dirE "empty" (.mk none .nil) .nil))
      true (-1) (by decide) (by norm_num)).1 "" statTemplate false).1
  · exact ((c7_rebuild_drops_metaless (.mk none (.dirE "empty" (.mk none .nil) .nil))
      true (-1) (by decide) (by norm_num)).1 "" statTemplate false).2
  · exact (c7_rebuild_drops_metaless (.mk none .nil)
      true (-1) (by decide) (by norm_num)).2 [] "ghost" .nil

end DropBack
